import Mathlib

/-!
# uSTL `ostringstream` (sostream.h)

A shallow embedding of the text-output stream declared in `sostream.h`:
the stream state (`_buffer`, `_flags`, `_width`, `_base`, `_precision` and the
write position inherited from `ostream`), the inline members defined in the
header, and the manipulators `endl`, `flush`, `ends`.

Bytes are natural numbers below 256, texts are lists of bytes.  Machine
integers are naturals with an explicit `% 2 ^ w` where a narrowing happens.
-/

namespace ustl

/-- The bytes of a text literal. -/
def bytes (s : String) : List Nat := s.toList.map Char.toNat

/-- State of an `ostringstream`: the private members of sostream.h:67-71 and the
write position `pos()` kept by the `ostream` base.  The buffer is the owned,
growable one; a stream linked to caller-supplied memory of fixed size is not
part of this model. -/
structure ostringstream where
  /-- Contents of `string _buffer`; its logical length is the list length. -/
  buffer : List Nat
  /-- Field `uint32_t _flags`. -/
  flags : Nat
  /-- Field `uint16_t _width`. -/
  width : Nat
  /-- Field `uint8_t _base`. -/
  base : Nat
  /-- Field `uint8_t _precision`. -/
  precision : Nat
  /-- Write offset `pos()` of the `ostream` base. -/
  pos : Nat
deriving DecidableEq, Repr

/-- Modelled from the spec: `string::resize` (defined in ustring.h, outside
sostream.h; the spec treats the growable string as a collaborator that
provides `resize`).  The logical length becomes `n`; the bytes below the old
length are kept.  Bytes exposed by growing are not determined by the stream;
they are zero here. -/
def string_resize (s : List Nat) (n : Nat) : List Nat :=
  s.take n ++ List.replicate (n - s.length) 0

/-- Modelled from the spec: `ostream::flush` of the base class (defined in
mostream.h, outside sostream.h).  The in-memory base stream has nothing to
commit: "flush: truncates logical length to position" is all of the effect,
and the derived class does it. -/
def ostream_flush (os : ostringstream) : ostringstream := os

/-- Member `ostringstream::flush` (sostream.h:55):
`ostream::flush(); _buffer.resize (pos()); return *this;` -/
def flush (os : ostringstream) : ostringstream :=
  let os := ostream_flush os
  { os with buffer := string_resize os.buffer os.pos }

/-- Member `ostringstream::str (void)` (sostream.h:50): `flush(); return _buffer;`.
The returned text comes with the stream state after the implied flush. -/
def str (os : ostringstream) : List Nat × ostringstream :=
  let os := flush os
  (os.buffer, os)

/-- Seek origins of `ios_base::seekdir`; `beg` is the default of `seekp`
(sostream.h:54). -/
inductive seekdir where
  | beg
  | cur
  | end_
deriving DecidableEq, Repr

/-- Modelled from the spec: `ostream::seekp (off_t, seekdir)` of the base class
(mostream.h).  "Repositions cursor"; the origin `end_` is the currently
committed length.  The capacity is not tracked: targets outside
`[0, capacity]` are outside the contract, a negative target is clamped at 0. -/
def ostream_seekp (os : ostringstream) (p : Int) (d : seekdir) : ostringstream :=
  match d with
  | seekdir.beg => { os with pos := p.toNat }
  | seekdir.cur => { os with pos := ((os.pos : Int) + p).toNat }
  | seekdir.end_ => { os with pos := ((os.buffer.length : Int) + p).toNat }

/-- Member `ostringstream::seekp` (sostream.h:54):
`ostream::seekp(p,d); return *this;` -/
def seekp (os : ostringstream) (p : Int) (d : seekdir) : ostringstream :=
  ostream_seekp os p d

/-- Modelled from the spec: `ostringstream::write (const void*, size_type)`
(declared at sostream.h:52, body in sostream.cc).  "Appends at position, grows
buffer as needed; advances position"; "writes overwrite in place only within
existing length": the bytes land at offsets `pos .. pos + n - 1`, the bytes
before `pos` and those from `pos + n` on stay, and a buffer shorter than
`pos` is first grown to `pos`.  This is the owning stream, whose writes
always go through. -/
def write (os : ostringstream) (b : List Nat) : ostringstream :=
  { os with
    buffer := string_resize os.buffer os.pos ++ b ++ os.buffer.drop (os.pos + b.length)
    pos := os.pos + b.length }

/-- Modelled from the spec: `ostringstream::iwrite (uint8_t)` (declared at
sostream.h:23, body in sostream.cc).  "Numeric writes for plain byte values
bypass printf formatting entirely and are appended as a single raw byte". -/
def iwrite_uint8_t (os : ostringstream) (v : Nat) : ostringstream :=
  write os [v]

/-- Member `ostringstream::put (char c)` (sostream.h:40):
`iwrite (uint8_t(c)); return *this;` -/
def put (os : ostringstream) (c : Nat) : ostringstream :=
  iwrite_uint8_t os (c % 2 ^ 8)

/-- The `operator<<` for `char` (sostream.h:144-152,
`OSTRSTREAM_CAST_OPERATOR (char, uint8_t)`): `os.iwrite ((uint8_t)(v)); return os;` -/
def operator_shl_char (os : ostringstream) (v : Nat) : ostringstream :=
  iwrite_uint8_t os (v % 2 ^ 8)

/-- Modelled from the spec: the owning constructor
`ostringstream (const string& v = "")` (declared at sostream.h:21, body in
sostream.cc).  "Fresh stream, buffer seeded with initial text, position = 0";
base default 10, precision default 6.  The spec names no initial width or
flags: they are 0 here. -/
def ostringstream.construct (v : List Nat) : ostringstream :=
  { buffer := v, flags := 0, width := 0, base := 10, precision := 6, pos := 0 }

/-- Stream states on which exactly the text `t` has been written from offset 0:
the position is the length of `t` and the first bytes of the buffer are `t`. -/
def written (os : ostringstream) (t : List Nat) : Prop :=
  os.pos = t.length ∧ os.buffer.take os.pos = t

instance (os : ostringstream) (t : List Nat) : Decidable (written os t) := by
  unfold written
  infer_instance

/-- Member `ostringstream::set_base (uint16_t b)` (sostream.h:43): `_base = b;`.
The field is a `uint8_t`, the assignment narrows. -/
def set_base (os : ostringstream) (b : Nat) : ostringstream :=
  { os with base := b % 2 ^ 8 }

/-- Member `ostringstream::set_width (uint16_t w)` (sostream.h:44): `_width = w;`.
Argument and field are both `uint16_t`. -/
def set_width (os : ostringstream) (w : Nat) : ostringstream :=
  { os with width := w }

/-- Member `ostringstream::set_precision (uint16_t v)` (sostream.h:47):
`_precision = v;`.  The field is a `uint8_t`, the assignment narrows. -/
def set_precision (os : ostringstream) (v : Nat) : ostringstream :=
  { os with precision := v % 2 ^ 8 }

/-- The enumerators of `ios_base::fmtflags` that sostream.h names (`oct`, `dec`,
`hex`, `left`, `right`).  Their values are declared in uios.h; they are taken
as parameters here. -/
structure fmtflags_values where
  oct : Nat
  dec : Nat
  hex : Nat
  left : Nat
  right : Nat
deriving DecidableEq, Repr

/-- What the header relies on about the enumerators: they fit the 32-bit flags
word, the five `case` labels of `iwrite (fmtflags)` are pairwise different (a
`switch` admits no two equal labels), and `left` and `right` share no bit. -/
def fmtflags_values.wf (F : fmtflags_values) : Prop :=
  F.oct < 2 ^ 32 ∧ F.dec < 2 ^ 32 ∧ F.hex < 2 ^ 32 ∧ F.left < 2 ^ 32 ∧ F.right < 2 ^ 32 ∧
    [F.oct, F.dec, F.hex, F.left, F.right].Nodup ∧ F.left &&& F.right = 0

instance (F : fmtflags_values) : Decidable F.wf := by
  unfold fmtflags_values.wf
  infer_instance

/-- One assignment of the enumerators, each a single bit of its own, for
evaluating examples. -/
def fmtflags_bits : fmtflags_values :=
  { dec := 0x80, oct := 0x100, hex := 0x200, left := 0x1000, right := 0x2000 }

/-- Bitwise complement `~x` within the 32-bit flags word. -/
def compl32 (x : Nat) : Nat := (2 ^ 32 - 1) ^^^ x

/-- Member `ostringstream::iwrite (fmtflags f)` (sostream.h:101-111): the
`switch` over `oct`, `dec`, `hex`, `left`, `right` and `default`. -/
def iwrite_fmtflags (F : fmtflags_values) (os : ostringstream) (f : Nat) : ostringstream :=
  if f = F.oct then set_base os 8
  else if f = F.dec then set_base os 10
  else if f = F.hex then set_base os 16
  else if f = F.left then
    let os := { os with flags := os.flags ||| F.left }
    { os with flags := os.flags &&& compl32 F.right }
  else if f = F.right then
    let os := { os with flags := os.flags ||| F.right }
    { os with flags := os.flags &&& compl32 F.left }
  else { os with flags := os.flags ||| f }

/-- The arithmetic types for which `printf_typestring` is specialised
(sostream.h:80-88) and `iwrite` calls `iformat` (sostream.h:25-30, 36-37). -/
inductive arith_type where
  | int
  | unsigned_int
  | long
  | unsigned_long
  | float
  | double
  | long_long
  | unsigned_long_long
deriving DecidableEq, Repr

/-- The `printf_typestring` specialisations (sostream.h:80-88). -/
def printf_typestring : arith_type → List Nat
  | arith_type.int => bytes "d"
  | arith_type.unsigned_int => bytes "u"
  | arith_type.long => bytes "ld"
  | arith_type.unsigned_long => bytes "lu"
  | arith_type.float => bytes "f"
  | arith_type.double => bytes "lf"
  | arith_type.long_long => bytes "lld"
  | arith_type.unsigned_long_long => bytes "llu"

/-- Decimal digits of `n`, most significant first, in front of `acc`; `fuel`
bounds the number of digits. -/
def encode_dec_digits : Nat → Nat → List Nat → List Nat
  | 0, _, acc => acc
  | fuel + 1, n, acc =>
    if n < 10 then ('0'.toNat + n) :: acc
    else encode_dec_digits fuel (n / 10) (('0'.toNat + n % 10) :: acc)

/-- Modelled from the spec: `ostringstream::encode_dec (char*, uint32_t)` (declared
at sostream.h:62, body in sostream.cc): the decimal text of the width or the
precision inside the conversion string.  A `uint32_t` has at most 10 digits. -/
def encode_dec (n : Nat) : List Nat := encode_dec_digits 10 n []

/-- Modelled from the spec: `ostringstream::fmtstring (char*, const char*, bool) const`
(declared at sostream.h:63, body in sostream.cc).  "Build a conversion string
equivalent to a printf specifier: `%[flags][width].[precision][length]conv`",
width and precision "taken from stream configuration state at the moment of
the call".  The flag part is the `-` of printf for the `left` flag, the width
is written when it is not zero, the precision ("digits after the decimal
separator") when the type is not an integer, and `typestr` supplies
`[length]conv`.  How the base enters the conversion letter is not stated by
the spec; exchanging that letter would not change the length.  The result is
the text without its terminating NUL. -/
def fmtstring (F : fmtflags_values) (os : ostringstream) (typestr : List Nat)
    (bInteger : Bool) : List Nat :=
  bytes "%"
    ++ (if os.flags &&& F.left ≠ 0 then bytes "-" else [])
    ++ (if os.width ≠ 0 then encode_dec os.width else [])
    ++ (if bInteger then [] else bytes "." ++ encode_dec os.precision)
    ++ typestr

theorem string_resize_length (s : List Nat) (n : Nat) :
    (string_resize s n).length = n := by
  unfold string_resize
  simp only [List.length_append, List.length_take, List.length_replicate]
  omega

theorem string_resize_of_le (s : List Nat) (n : Nat) (h : n ≤ s.length) :
    string_resize s n = s.take n := by
  unfold string_resize
  have : n - s.length = 0 := by omega
  simp [this]

/-- C1: for every stream state with position `p`, `flush` leaves the position
at `p` and makes the buffer's logical length exactly `p`; when `p` is at most
the previous length the buffer after the flush is exactly the first `p` bytes
of the buffer before it. -/
theorem flush_truncates_to_pos (os : ostringstream) :
    (flush os).pos = os.pos ∧ (flush os).buffer.length = os.pos ∧
      (os.pos ≤ os.buffer.length → (flush os).buffer = os.buffer.take os.pos) := by
  refine ⟨rfl, ?_, ?_⟩
  · exact string_resize_length _ _
  · intro h
    exact string_resize_of_le _ _ h

/-- Witness of C1: a stream holding "abc" at position 2 is flushed to "ab". -/
theorem flush_truncates_to_pos_witness :
    (flush (seekp (ostringstream.construct (bytes "abc")) 2 seekdir.beg)).buffer = bytes "ab" :=
  (flush_truncates_to_pos (seekp (ostringstream.construct (bytes "abc")) 2 seekdir.beg)).2.2
    (by decide)

/-- The position after a flush is the position before it. -/
theorem flush_pos (os : ostringstream) : (flush os).pos = os.pos := rfl

theorem flush_buffer (os : ostringstream) :
    (flush os).buffer = string_resize os.buffer os.pos := rfl

theorem write_pos (os : ostringstream) (b : List Nat) :
    (write os b).pos = os.pos + b.length := rfl

theorem write_buffer (os : ostringstream) (b : List Nat) :
    (write os b).buffer =
      string_resize os.buffer os.pos ++ b ++ os.buffer.drop (os.pos + b.length) := rfl

/-- The first `pos + n` bytes after a write are the kept bytes and the written ones. -/
theorem write_buffer_take (os : ostringstream) (b : List Nat) :
    (write os b).buffer.take (os.pos + b.length) = string_resize os.buffer os.pos ++ b := by
  rw [write_buffer, List.take_append_of_le_length]
  · rw [List.take_of_length_le]
    simp [string_resize_length]
  · simp [string_resize_length]

theorem written_pos_le {os : ostringstream} {t : List Nat} (h : written os t) :
    os.pos ≤ os.buffer.length := by
  obtain ⟨h1, h2⟩ := h
  have h3 := congrArg List.length h2
  rw [List.length_take] at h3
  omega

theorem written_write {os : ostringstream} {t : List Nat} (h : written os t) (b : List Nat) :
    written (write os b) (t ++ b) := by
  have hle := written_pos_le h
  obtain ⟨h1, h2⟩ := h
  refine ⟨?_, ?_⟩
  · rw [write_pos, List.length_append, h1]
  · rw [write_pos, write_buffer_take, string_resize_of_le _ _ hle, h2]

theorem written_foldl_write (ts : List (List Nat)) :
    ∀ (os : ostringstream) (t : List Nat), written os t →
      written (ts.foldl write os) (t ++ ts.flatten) := by
  induction ts with
  | nil => intro os t h; simpa using h
  | cons b ts ih =>
    intro os t h
    have := ih (write os b) (t ++ b) (written_write h b)
    simpa [List.foldl_cons, List.flatten_cons, List.append_assoc] using this

/-- Seeking back to `q` and flushing leaves the first `q` bytes of the written text. -/
theorem written_seekp_flush {os : ostringstream} {t : List Nat} (h : written os t)
    (q : Nat) (hq : q ≤ t.length) :
    (flush (seekp os (q : Int) seekdir.beg)).buffer = t.take q ∧
      (flush (seekp os (q : Int) seekdir.beg)).pos = q := by
  have hle := written_pos_le h
  obtain ⟨h1, h2⟩ := h
  have hpos : (seekp os (q : Int) seekdir.beg).pos = q := by
    simp [seekp, ostream_seekp]
  have hbuf : (seekp os (q : Int) seekdir.beg).buffer = os.buffer := by
    simp [seekp, ostream_seekp]
  refine ⟨?_, ?_⟩
  · rw [flush_buffer, hpos, hbuf, string_resize_of_le _ _ (by omega), ← h2, List.take_take]
    congr 1
    omega
  · rw [flush_pos, hpos]

/-- C2: on a stream on which the texts `ts` have been written from offset 0
(`n` bytes in all, position `n`), for every `q ≤ n`, `seekp (q, beg)` followed
by `flush` and then `str ()` returns exactly the first `q` bytes of the
written text: its length is `q`, so no byte written at an offset from `q` on
is part of it. -/
theorem seekp_flush_str_is_written_take (os : ostringstream) (ts : List (List Nat)) (q : Nat)
    (h0 : os.pos = 0) (hq : q ≤ ts.flatten.length) :
    (ts.foldl write os).pos = ts.flatten.length ∧
      (str (flush (seekp (ts.foldl write os) (q : Int) seekdir.beg))).1 = ts.flatten.take q ∧
      (str (flush (seekp (ts.foldl write os) (q : Int) seekdir.beg))).1.length = q := by
  have hw0 : written os [] := ⟨by simpa using h0, by simp [h0]⟩
  have hw : written (ts.foldl write os) ts.flatten := by
    simpa using written_foldl_write ts os [] hw0
  obtain ⟨hb, hp⟩ := written_seekp_flush hw q hq
  have hstr : (str (flush (seekp (ts.foldl write os) (q : Int) seekdir.beg))).1
      = ts.flatten.take q := by
    show (flush (flush (seekp (ts.foldl write os) (q : Int) seekdir.beg))).buffer = _
    rw [flush_buffer, hp, hb, string_resize_of_le _ _ (by rw [List.length_take]; omega),
      List.take_take]
    simp
  refine ⟨hw.1, hstr, ?_⟩
  rw [hstr, List.length_take]
  omega

/-- Witness of C2: "hello " and "world" written on a fresh stream, then a seek to 4. -/
theorem seekp_flush_str_is_written_take_witness :
    (str (flush (seekp ([bytes "hello ", bytes "world"].foldl write
        (ostringstream.construct [])) (4 : Nat) seekdir.beg))).1 = bytes "hell" :=
  (seekp_flush_str_is_written_take (ostringstream.construct [])
    [bytes "hello ", bytes "world"] 4 rfl (by decide)).2.1

theorem shl_char_pos (os : ostringstream) (c : Nat) :
    (operator_shl_char os c).pos = os.pos + 1 := rfl

/-- Counterexample to C6: on the stream constructed with "abc", after
`seekp (1, beg)`, `put ('X')` and `flush`, `str ()` does not return "aXc". -/
theorem abc_seek_put_flush_is_not_aXc :
    (str (flush (put (seekp (ostringstream.construct (bytes "abc")) 1 seekdir.beg)
      'X'.toNat))).1 ≠ bytes "aXc" := by
  decide

/-- C6 as amended: on the stream constructed with "abc", `seekp (1, beg)` and
`put ('X')` overwrite in place (the buffer holds "aXc", the position is 2), and
the following `flush` truncates to the position: `str ()` returns "aX". -/
theorem abc_seek_put_flush_is_aX :
    (put (seekp (ostringstream.construct (bytes "abc")) 1 seekdir.beg) 'X'.toNat).buffer
        = bytes "aXc" ∧
      (put (seekp (ostringstream.construct (bytes "abc")) 1 seekdir.beg) 'X'.toNat).pos = 2 ∧
      (str (flush (put (seekp (ostringstream.construct (bytes "abc")) 1 seekdir.beg)
        'X'.toNat))).1 = bytes "aX" := by
  decide

/-- Counterexample to C8: `set_base (256)` stores 0, not 256, and
`set_precision (300)` stores 44, not 300. -/
theorem set_base_256_stores_0 :
    (set_base (ostringstream.construct []) 256).base = 0 ∧
      (set_base (ostringstream.construct []) 256).base ≠ 256 ∧
      (set_precision (ostringstream.construct []) 300).precision = 44 ∧
      (set_precision (ostringstream.construct []) 300).precision ≠ 300 := by
  decide

/-- C8 as amended: for every 16-bit unsigned argument `v`, `set_width (v)`
stores `v`, while `set_base (v)` and `set_precision (v)` store `v` modulo 256
in their 8-bit fields, which is `v` itself exactly when `v < 256`. -/
theorem setters_store_argument_narrowed (os : ostringstream) (v : Nat) (hv : v < 2 ^ 16) :
    (set_width os v).width = v ∧ (set_width os v).width < 2 ^ 16 ∧
      (set_base os v).base = v % 2 ^ 8 ∧
      (set_precision os v).precision = v % 2 ^ 8 ∧
      ((set_base os v).base = v ↔ v < 2 ^ 8) ∧
      ((set_precision os v).precision = v ↔ v < 2 ^ 8) := by
  refine ⟨rfl, hv, rfl, rfl, ?_, ?_⟩
  · show v % 2 ^ 8 = v ↔ v < 2 ^ 8
    constructor
    · intro h
      rw [← h]
      exact Nat.mod_lt _ (by norm_num)
    · exact Nat.mod_eq_of_lt
  · show v % 2 ^ 8 = v ↔ v < 2 ^ 8
    constructor
    · intro h
      rw [← h]
      exact Nat.mod_lt _ (by norm_num)
    · exact Nat.mod_eq_of_lt

/-- Witness of C8 as amended: the argument 16 and the argument 4096. -/
theorem setters_store_argument_narrowed_witness :
    (set_base (ostringstream.construct []) 16).base = 16 ∧
      (set_width (ostringstream.construct []) 4096).width = 4096 ∧
      (set_precision (ostringstream.construct []) 4096).precision = 0 :=
  ⟨((setters_store_argument_narrowed (ostringstream.construct []) 16 (by norm_num)).2.2.2.2.1).2
      (by norm_num),
    (setters_store_argument_narrowed (ostringstream.construct []) 4096 (by norm_num)).1,
    (setters_store_argument_narrowed (ostringstream.construct []) 4096 (by norm_num)).2.2.2.1⟩

/-- The longest conversion string: width 65535, left-justified, precision 255,
type string "lld" with the precision written takes 15 bytes with its NUL. -/
theorem fmtstring_longest :
    fmtstring fmtflags_bits
        { buffer := [], flags := 0x1000, width := 65535, base := 10, precision := 255, pos := 0 }
        (printf_typestring arith_type.long_long) false = bytes "%-65535.255lld" ∧
      (bytes "%-65535.255lld").length + 1 = 15 := by
  decide

theorem lor_land_self (a f : Nat) : (a ||| f) &&& f = f := by
  apply Nat.eq_of_testBit_eq
  intro i
  simp only [Nat.testBit_land, Nat.testBit_lor]
  cases a.testBit i <;> cases f.testBit i <;> rfl

theorem land_compl32_land_self (a r : Nat) (hr : r < 2 ^ 32) : (a &&& compl32 r) &&& r = 0 := by
  apply Nat.eq_of_testBit_eq
  intro i
  by_cases hi : i < 32
  · simp only [compl32, Nat.testBit_land, Nat.testBit_xor, Nat.zero_testBit,
      Nat.testBit_two_pow_sub_one, hi, decide_True]
    cases a.testBit i <;> cases r.testBit i <;> simp
  · have hr0 : r.testBit i = false := by
      apply Nat.testBit_eq_false_of_lt
      calc r < 2 ^ 32 := hr
        _ ≤ 2 ^ i := Nat.pow_le_pow_right (by norm_num) (by omega)
    simp [Nat.testBit_land, hr0]

theorem lor_land_compl32_land (a l r : Nat) (hl : l < 2 ^ 32) (hlr : l &&& r = 0) :
    ((a ||| l) &&& compl32 r) &&& l = l := by
  apply Nat.eq_of_testBit_eq
  intro i
  have hbit : (l &&& r).testBit i = false := by rw [hlr]; exact Nat.zero_testBit i
  rw [Nat.testBit_land] at hbit
  by_cases hi : i < 32
  · simp only [compl32, Nat.testBit_land, Nat.testBit_lor, Nat.testBit_xor,
      Nat.testBit_two_pow_sub_one, hi, decide_True]
    revert hbit
    cases a.testBit i <;> cases l.testBit i <;> cases r.testBit i <;> simp
  · have hl0 : l.testBit i = false := by
      apply Nat.testBit_eq_false_of_lt
      calc l < 2 ^ 32 := hl
        _ ≤ 2 ^ i := Nat.pow_le_pow_right (by norm_num) (by omega)
    simp [Nat.testBit_land, hl0]

/-- Counterexample to C10: on a stream with no flag set, `iwrite (oct)` leaves
the flags word 0, so the bit of `oct` is not set in it; the base becomes 8. -/
theorem iwrite_oct_does_not_set_flag :
    (iwrite_fmtflags fmtflags_bits (ostringstream.construct []) fmtflags_bits.oct).flags = 0 ∧
      (iwrite_fmtflags fmtflags_bits (ostringstream.construct []) fmtflags_bits.oct).flags
          &&& fmtflags_bits.oct ≠ fmtflags_bits.oct ∧
      (iwrite_fmtflags fmtflags_bits (ostringstream.construct []) fmtflags_bits.oct).base = 8 := by
  decide

/-- C10 as amended: for every flag value `f` other than `oct`, `dec` and `hex`
and every stream state, after `iwrite (f)` every bit of `f` is set in the
flags word (with `left` clearing the bits of `right` and `right` those of
`left`); `iwrite` of `oct`, `dec` or `hex` instead sets the base to 8, 10 or 16
and leaves the flags word as it was. -/
theorem iwrite_fmtflags_effect (F : fmtflags_values) (hF : F.wf) (os : ostringstream) (f : Nat) :
    (f ≠ F.oct → f ≠ F.dec → f ≠ F.hex →
      (iwrite_fmtflags F os f).flags &&& f = f ∧ (iwrite_fmtflags F os f).base = os.base) ∧
    (iwrite_fmtflags F os F.left).flags &&& F.right = 0 ∧
    (iwrite_fmtflags F os F.right).flags &&& F.left = 0 ∧
    iwrite_fmtflags F os F.oct = { os with base := 8 } ∧
    iwrite_fmtflags F os F.dec = { os with base := 10 } ∧
    iwrite_fmtflags F os F.hex = { os with base := 16 } := by
  obtain ⟨-, -, -, hl, hr, hnd, hlr⟩ := hF
  simp only [List.nodup_cons, List.mem_cons, List.mem_singleton, not_or, List.not_mem_nil,
    not_false_eq_true, List.nodup_nil, and_true] at hnd
  obtain ⟨⟨h12, h13, h14, h15⟩, ⟨h23, h24, h25⟩, ⟨h34, h35⟩, h45⟩ := hnd
  have hrl : F.right &&& F.left = 0 := by rw [Nat.land_comm]; exact hlr
  refine ⟨?_, ?_, ?_, ?_, ?_, ?_⟩
  · intro h1 h2 h3
    unfold iwrite_fmtflags
    rw [if_neg h1, if_neg h2, if_neg h3]
    by_cases h4 : f = F.left
    · subst h4
      rw [if_pos rfl]
      exact ⟨lor_land_compl32_land _ _ _ hl hlr, rfl⟩
    · rw [if_neg h4]
      by_cases h5 : f = F.right
      · subst h5
        rw [if_pos rfl]
        exact ⟨lor_land_compl32_land _ _ _ hr hrl, rfl⟩
      · rw [if_neg h5]
        exact ⟨lor_land_self _ _, rfl⟩
  · unfold iwrite_fmtflags
    rw [if_neg (Ne.symm h14), if_neg (Ne.symm h24), if_neg (Ne.symm h34), if_pos rfl]
    exact land_compl32_land_self _ _ hr
  · unfold iwrite_fmtflags
    rw [if_neg (Ne.symm h15), if_neg (Ne.symm h25), if_neg (Ne.symm h35),
      if_neg (Ne.symm h45), if_pos rfl]
    exact land_compl32_land_self _ _ hl
  · unfold iwrite_fmtflags
    rw [if_pos rfl]
    rfl
  · unfold iwrite_fmtflags
    rw [if_neg (Ne.symm h12), if_pos rfl]
    rfl
  · unfold iwrite_fmtflags
    rw [if_neg (Ne.symm h13), if_neg (Ne.symm h23), if_pos rfl]
    rfl

/-- Witness of C10 as amended: `iwrite (left)` on a stream whose flags word
holds `right` and one more bit. -/
theorem iwrite_fmtflags_effect_witness :
    fmtflags_bits.wf ∧
      (iwrite_fmtflags fmtflags_bits
        { buffer := [], flags := 0x2001, width := 0, base := 10, precision := 6, pos := 0 }
        fmtflags_bits.left).flags &&& fmtflags_bits.left = fmtflags_bits.left :=
  ⟨by decide,
    ((iwrite_fmtflags_effect fmtflags_bits (by decide)
      { buffer := [], flags := 0x2001, width := 0, base := 10, precision := 6, pos := 0 }
      fmtflags_bits.left).1 (by decide) (by decide) (by decide)).1⟩

end ustl
